import Mathlib

/-!
# Verification of zeabur-env-sync

A shallow embedding of the core of the `zeabur-env-sync` tool:
the config parser (`parseEnvToVariables`), the diff engine
(`compareVariables`), the sync orchestrator (`runSync`,
`runSyncWithErrorHandling`), the schedule guard, and the notification
fan-out (`sendNotification`), with theorems about their behaviour.
-/

namespace ZeaburEnvSync

/-- `EnvironmentVariable` from type.ts: `{ _id: string; key: string; value: string }`. -/
structure EnvironmentVariable where
  _id : String
  key : String
  value : String
deriving DecidableEq, Repr

/-- An entry of the `toUpdate` list of a `VariablesDiff` (type.ts). -/
structure UpdateEntry where
  key : String
  oldValue : String
  newValue : String
deriving DecidableEq, Repr

/-- `VariablesDiff` from type.ts. -/
structure VariablesDiff where
  toAdd : List EnvironmentVariable
  toUpdate : List UpdateEntry
  toDelete : List EnvironmentVariable
deriving DecidableEq, Repr

/-!
## JavaScript `Map` semantics

`compareVariables` builds `new Map(list)`, i.e. repeated `Map.set`:
setting an existing key overwrites its value in place (keeping the key's
original insertion position); a fresh key is appended.  Iteration is in
insertion order.  We embed a `Map` as an association list with exactly
this insert-overwrite-keep-position semantics.
-/

/-- JavaScript `Map.set m k v`: overwrite in place if `k` is present, else append. -/
def mapSet (m : List (String × α)) (k : String) (v : α) : List (String × α) :=
  if m.any (fun p => p.1 == k) then
    m.map (fun p => if p.1 == k then (k, v) else p)
  else
    m ++ [(k, v)]

/-- JavaScript `new Map(l)`: fold `Map.set` over the entry list. -/
def mapOfList (l : List (String × α)) : List (String × α) :=
  l.foldl (fun m p => mapSet m p.1 p.2) []

/-- JavaScript `Map.get m k` (`none` for a missing key). -/
def mapGet (m : List (String × α)) (k : String) : Option α :=
  (m.find? (fun p => p.1 == k)).map Prod.snd

/-! ## Config parser -/

/-- Split a character list at every occurrence of `c` (like `String.split`). -/
def splitOnChar (c : Char) (l : List Char) : List (List Char) :=
  l.foldr
    (fun x acc =>
      match acc with
      | [] => if x = c then [[], []] else [[x]]
      | a :: as => if x = c then [] :: a :: as else (x :: a) :: as)
    [[]]

/-- Whitespace test used for trimming. -/
def isWs (c : Char) : Bool := c = ' ' ∨ c = '\t' ∨ c = '\r' ∨ c = '\n'

/-- Trim whitespace from both ends of a character list. -/
def trimChars (l : List Char) : List Char :=
  ((l.dropWhile isWs).reverse.dropWhile isWs).reverse

/-- Split at the first occurrence of `c`, if any. -/
def splitFirst (c : Char) : List Char → Option (List Char × List Char)
  | [] => none
  | x :: xs =>
      if x = c then some ([], xs)
      else (splitFirst c xs).map (fun p => (x :: p.1, p.2))

/-- The double-quote character. -/
def dquote : Char := Char.ofNat 34

/-- The single-quote character. -/
def squote : Char := Char.ofNat 39

/-- Remove one matching pair of surrounding quotes, if present. -/
def stripQuotes (l : List Char) : List Char :=
  match l with
  | [] => l
  | c :: rest =>
      if rest ≠ [] ∧ (c = dquote ∨ c = squote) ∧ rest.getLast? = some c then
        rest.dropLast
      else l

/--
Modelled from the spec: the decoding done by the external `dotenv.parse`
dependency (a library, not part of this repository): "raw textual payload in
`KEY=VALUE` line format (standard dotenv-style encoding: one assignment per
line, optional quoting, comments, blank lines ignored)" decoded "into a
key→value association where a later assignment of the same key overwrites an
earlier one (last-wins)".  The association is in insertion order, like a
JavaScript object with string keys.
-/
def dotenvParse (envContent : String) : List (String × String) :=
  (splitOnChar '\n' envContent.data).foldl
    (fun acc line =>
      let line := trimChars line
      let line :=
        if "export ".data.isPrefixOf line then trimChars (line.drop 7) else line
      if line = [] ∨ line.head? = some '#' then acc
      else
        match splitFirst '=' line with
        | none => acc
        | some (k, rest) =>
            let key := trimChars k
            if key = [] then acc
            else
              let value := stripQuotes (trimChars rest)
              mapSet acc (String.mk key) (String.mk value))
    []

/--
`parseEnvToVariables` from utils.ts: `dotenv.parse` the payload, keep entries
with a truthy key and a defined value, and number the surviving records with
incremental string identifiers starting at `"1"`.
-/
def parseEnvToVariables (envContent : String) : List EnvironmentVariable :=
  let parsed := dotenvParse envContent
  (parsed.filter fun p => p.1 ≠ "").enum.map fun p =>
    { _id := toString (p.1 + 1), key := p.2.1, value := p.2.2 }

/-! ## Diff engine -/

/--
`compareVariables` from utils.ts: build key→record maps for `current` and
`desired`; a desired key missing from current goes to `toAdd`, present with a
different value goes to `toUpdate`; a current key missing from desired goes to
`toDelete`.
-/
def compareVariables (current desired : List EnvironmentVariable) :
    VariablesDiff :=
  let currentMap := mapOfList (current.map fun v => (v.key, v))
  let desiredMap := mapOfList (desired.map fun v => (v.key, v))
  let toAdd := desiredMap.filterMap fun p =>
    match mapGet currentMap p.1 with
    | none => some p.2
    | some _ => none
  let toUpdate := desiredMap.filterMap fun p =>
    match mapGet currentMap p.1 with
    | none => none
    | some currentVar =>
        if currentVar.value ≠ p.2.value then
          some ⟨p.1, currentVar.value, p.2.value⟩
        else
          none
  let toDelete := currentMap.filterMap fun p =>
    match mapGet desiredMap p.1 with
    | none => some p.2
    | some _ => none
  ⟨toAdd, toUpdate, toDelete⟩

/-! ## Sync orchestrator

`runSync` from index.ts sequences its collaborator calls: read current
variables from Zeabur, fetch the vault payload, parse, diff, and — when the
diff is non-empty — bulk-update and restart.  We embed the collaborators as
oracles (each call's outcome is a parameter) and record the calls `runSync`
makes as an event trace.
-/

/-- The vault object returned by `getVaultHubVault` (only `.value` is used). -/
structure Vault where
  value : String
deriving DecidableEq, Repr

/-- An observable collaborator call made during a sync cycle. -/
inductive Event where
  /-- `getZeaburVariables()` was invoked. -/
  | getVars : Event
  /-- `getVaultHubVault()` was invoked. -/
  | getVault : Event
  /-- `updateZeaburVariables(vars)` was invoked with argument `vars`. -/
  | update (vars : List EnvironmentVariable) : Event
  /-- `restartZeaburService()` was invoked. -/
  | restart : Event
  /-- `sendNotification(payload)` was invoked (never emitted by `runSync`). -/
  | notify : Event
  /-- The error-handling wrapper logged a caught error. -/
  | logError (message : String) : Event
deriving DecidableEq, Repr

/-- Outcomes of the collaborator calls a sync cycle may make: each field gives
the result (`.ok`) or thrown error (`.error`) of the corresponding call.  The
update and restart results are opaque GraphQL responses, embedded as
strings. -/
structure Collaborators where
  getZeaburVariables : Except String (List EnvironmentVariable)
  getVaultHubVault : Except String Vault
  updateZeaburVariables : List EnvironmentVariable → Except String String
  restartZeaburService : Except String String

/-- The record `runSync` returns when changes were applied. -/
structure SyncResult where
  diff : VariablesDiff
  updateResult : String
  restartResult : String
deriving DecidableEq, Repr

/--
`runSync` from index.ts.  Returns the trace of collaborator calls and the
outcome: `.error e` when a collaborator threw `e` (the error propagates),
`.ok none` for the empty-diff short circuit (`return` with no value,
i.e. `undefined`), `.ok (some r)` when changes were applied.
-/
def runSync (c : Collaborators) :
    List Event × Except String (Option SyncResult) :=
  match c.getZeaburVariables with
  | .error e => ([.getVars], .error e)
  | .ok existingVariables =>
    match c.getVaultHubVault with
    | .error e => ([.getVars, .getVault], .error e)
    | .ok vaultVariables =>
      let parsedVaultVariables := parseEnvToVariables vaultVariables.value
      let diff := compareVariables existingVariables parsedVaultVariables
      if diff.toAdd.length + diff.toUpdate.length + diff.toDelete.length = 0 then
        ([.getVars, .getVault], .ok none)
      else
        match c.updateZeaburVariables parsedVaultVariables with
        | .error e =>
            ([.getVars, .getVault, .update parsedVaultVariables], .error e)
        | .ok updateResult =>
          match c.restartZeaburService with
          | .error e =>
              ([.getVars, .getVault, .update parsedVaultVariables, .restart],
               .error e)
          | .ok restartResult =>
              ([.getVars, .getVault, .update parsedVaultVariables, .restart],
               .ok (some ⟨diff, updateResult, restartResult⟩))

/--
`runSyncWithErrorHandling` from index.ts: run `runSync` in a `try`; on error,
log it (with the cycle's timestamp) and return normally instead of rethrowing.
The result is the event trace (a caught error appends a `logError` event) and
the wrapper's own outcome, which is always `.ok ()`.
-/
def runSyncWithErrorHandling (c : Collaborators) :
    List Event × Except String Unit :=
  match runSync c with
  | (trace, .error e) => (trace ++ [.logError e], .ok ())
  | (trace, .ok _) => (trace, .ok ())

/-! ## Schedule guard -/

/-- The cron job configuration `startScheduler` registers with the `cronbake`
scheduler (index.ts): a fixed job name, the given cron expression, and
overrun protection enabled. -/
structure JobConfig where
  name : String
  cron : String
  overrunProtection : Bool
deriving DecidableEq, Repr

/-- `startScheduler` from index.ts, projected to the job entry it adds to the
baker: `name: "zeabur-env-sync"`, the given cron schedule, and
`overrunProtection: true` ("Skip if previous sync still running"). -/
def startScheduler (cronSchedule : String) : JobConfig :=
  { name := "zeabur-env-sync", cron := cronSchedule, overrunProtection := true }

/-- Scheduler-visible state of the single registered job: whether a wrapped
sync cycle is currently in flight, and how many times the wrapped cycle
function has been invoked. -/
structure SchedulerState where
  running : Bool
  invocations : Nat
deriving DecidableEq, Repr

/--
Modelled from the spec: the tick semantics of the external `cronbake`
scheduler dependency (not part of this repository) under the
`overrunProtection` flag — "if a previous invocation of the wrapped sync cycle
has not completed when the next scheduled tick fires, the new tick is skipped
entirely (not queued, not run in parallel)"; without the flag, or when no
cycle is pending, the tick invokes the wrapped callback.
-/
def schedulerTick (cfg : JobConfig) (s : SchedulerState) : SchedulerState :=
  if s.running ∧ cfg.overrunProtection then s
  else { running := true, invocations := s.invocations + 1 }

/-- Modelled from the spec: completion of the in-flight cycle clears the
scheduler's pending flag. -/
def schedulerComplete (s : SchedulerState) : SchedulerState :=
  { s with running := false }

/-- The scheduler's initial state: armed, nothing in flight, no invocations. -/
def schedulerInit : SchedulerState := { running := false, invocations := 0 }

/-! ## Notification fan-out -/

/-- A settled promise outcome, as produced by `Promise.allSettled`. -/
inductive Outcome where
  | fulfilled : Outcome
  | rejected (reason : String) : Outcome
deriving DecidableEq, Repr

/-- `Promise.allSettled` over the providers' send attempts: every attempt is
awaited and its outcome recorded; a rejection never aborts the others. -/
def allSettled (sends : List (Except String Unit)) : List Outcome :=
  sends.map fun r =>
    match r with
    | .ok _ => .fulfilled
    | .error e => .rejected e

/--
`sendNotification` from notifier/index.ts, with the configured providers'
send behaviours as oracle input (one entry per configured provider; each entry
is that provider's `send(payload)` outcome for the payload being delivered).
With no providers it logs and returns; otherwise it `Promise.allSettled`s all
provider sends, logs the rejections, and returns normally — it never throws.
The result is the list of settled outcomes (empty when no provider is
configured) and the function's own outcome.
-/
def sendNotification (providerSends : List (Except String Unit)) :
    List Outcome × Except String Unit :=
  if providerSends.isEmpty then
    ([], .ok ())
  else
    let results := allSettled providerSends
    (results, .ok ())

/-! ## Statement vocabulary and concrete instances -/

/-- Lookup of a key in a snapshot, i.e. `currentMap.get(key)` on a snapshot
with unique keys: the first record whose `key` field equals `k`. -/
def lookupVar (s : List EnvironmentVariable) (k : String) :
    Option EnvironmentVariable :=
  s.find? (fun v => v.key == k)

/-- The partition/classification property of `compareVariables` at one key
`k`: `k` is in `toAdd` iff it is in `desired` and not in `current`; in
`toUpdate` iff it is in both with unequal values; in `toDelete` iff it is in
`current` and not in `desired`; absent from all three (while present in at
least one snapshot) iff it is in both with equal values; and never in two of
the lists at once. -/
def PartitionAt (current desired : List EnvironmentVariable) (k : String) :
    Prop :=
  ((k ∈ (compareVariables current desired).toAdd.map (fun v => v.key)) ↔
    ((lookupVar desired k).isSome ∧ lookupVar current k = none)) ∧
  ((k ∈ (compareVariables current desired).toUpdate.map (fun u => u.key)) ↔
    (∃ cv dv, lookupVar current k = some cv ∧ lookupVar desired k = some dv ∧
      cv.value ≠ dv.value)) ∧
  ((k ∈ (compareVariables current desired).toDelete.map (fun v => v.key)) ↔
    ((lookupVar current k).isSome ∧ lookupVar desired k = none)) ∧
  ((k ∉ (compareVariables current desired).toAdd.map (fun v => v.key) ∧
    k ∉ (compareVariables current desired).toUpdate.map (fun u => u.key) ∧
    k ∉ (compareVariables current desired).toDelete.map (fun v => v.key) ∧
    ((lookupVar current k).isSome ∨ (lookupVar desired k).isSome)) ↔
    (∃ cv dv, lookupVar current k = some cv ∧ lookupVar desired k = some dv ∧
      cv.value = dv.value)) ∧
  (¬(k ∈ (compareVariables current desired).toAdd.map (fun v => v.key) ∧
      k ∈ (compareVariables current desired).toUpdate.map (fun u => u.key)) ∧
   ¬(k ∈ (compareVariables current desired).toAdd.map (fun v => v.key) ∧
      k ∈ (compareVariables current desired).toDelete.map (fun v => v.key)) ∧
   ¬(k ∈ (compareVariables current desired).toUpdate.map (fun u => u.key) ∧
      k ∈ (compareVariables current desired).toDelete.map (fun v => v.key)))

/-- A concrete collaborator instance whose computed diff is empty (Zeabur has
no variables and the vault payload is empty). -/
def cEmpty : Collaborators :=
  { getZeaburVariables := .ok []
    getVaultHubVault := .ok ⟨""⟩
    updateZeaburVariables := fun _ => .ok "ok"
    restartZeaburService := .ok "ok" }

/-- A concrete collaborator instance whose computed diff is non-empty (the
vault adds variable `A`) and whose apply and restart calls succeed. -/
def cChange : Collaborators :=
  { getZeaburVariables := .ok []
    getVaultHubVault := .ok ⟨"A=1"⟩
    updateZeaburVariables := fun _ => .ok "ok"
    restartZeaburService := .ok "ok" }

/-- A concrete collaborator instance whose first collaborator call throws. -/
def cFail : Collaborators :=
  { getZeaburVariables := .error "boom"
    getVaultHubVault := .ok ⟨""⟩
    updateZeaburVariables := fun _ => .ok "ok"
    restartZeaburService := .ok "ok" }

/-! ## Lemmas on the embedded JavaScript `Map` -/

theorem keys_mapSet (m : List (String × α)) (k : String) (v : α) :
    (mapSet m k v).map Prod.fst =
      if m.any (fun p => p.1 == k) then m.map Prod.fst
      else m.map Prod.fst ++ [k] := by
  unfold mapSet
  split
  · simp only [List.map_map]
    apply List.map_congr_left
    intro p _
    by_cases h : p.1 == k
    · simp [h, Function.comp]
      exact (eq_of_beq h).symm
    · simp [h, Function.comp]
  · simp

theorem nodupKeys_mapSet (m : List (String × α)) (k : String) (v : α)
    (h : (m.map Prod.fst).Nodup) : ((mapSet m k v).map Prod.fst).Nodup := by
  rw [keys_mapSet]
  split
  · exact h
  · rename_i hany
    simp only [List.any_eq_true, not_exists] at hany
    push_neg at hany
    refine List.Nodup.append h (List.nodup_singleton k) ?_
    intro a ha hb
    simp only [List.mem_singleton] at hb
    subst hb
    simp only [List.mem_map] at ha
    obtain ⟨p, hp, hpa⟩ := ha
    exact hany p hp (by simp [hpa])

theorem nodupKeys_foldl_mapSet (l : List (String × α)) :
    ∀ m : List (String × α), (m.map Prod.fst).Nodup →
      (((l.foldl (fun m p => mapSet m p.1 p.2) m)).map Prod.fst).Nodup := by
  induction l with
  | nil =>
      intro m hm
      simpa using hm
  | cons p l ih =>
      intro m hm
      exact ih _ (nodupKeys_mapSet m p.1 p.2 hm)

theorem nodupKeys_mapOfList (l : List (String × α)) :
    ((mapOfList l).map Prod.fst).Nodup :=
  nodupKeys_foldl_mapSet l [] (by simp)

theorem mapGet_of_mem_nodup (m : List (String × α))
    (h : (m.map Prod.fst).Nodup) {p : String × α} (hp : p ∈ m) :
    mapGet m p.1 = some p.2 := by
  induction m with
  | nil => cases hp
  | cons q m ih =>
      simp only [List.map_cons, List.nodup_cons] at h
      rcases List.mem_cons.mp hp with rfl | hp'
      · simp [mapGet, List.find?]
      · have hne : q.1 ≠ p.1 := by
          intro he
          exact h.1 (he ▸ List.mem_map.mpr ⟨p, hp', rfl⟩)
        have := ih h.2 hp'
        simp only [mapGet, List.find?] at this ⊢
        have hb : (q.1 == p.1) = false := by
          simpa using hne
        rw [hb]
        exact this

theorem foldl_mapSet_append (l l' : List (String × α))
    (m : List (String × α)) :
    (l ++ l').foldl (fun m p => mapSet m p.1 p.2) m =
      l'.foldl (fun m p => mapSet m p.1 p.2)
        (l.foldl (fun m p => mapSet m p.1 p.2) m) :=
  List.foldl_append _ _ _ _

theorem mapOfList_eq_self (l : List (String × α))
    (h : (l.map Prod.fst).Nodup) : mapOfList l = l := by
  induction l using List.reverseRecOn with
  | nil => rfl
  | append_singleton l q ih =>
      rw [List.map_append, List.nodup_append] at h
      have hl := ih h.1
      have hq : ∀ p ∈ l, ¬(p.1 == q.1) := by
        intro p hp hb
        exact h.2.2 (List.mem_map.mpr ⟨p, hp, rfl⟩) (by simp [eq_of_beq hb])
      unfold mapOfList at hl ⊢
      rw [foldl_mapSet_append, hl]
      simp only [List.foldl_cons, List.foldl_nil]
      unfold mapSet
      rw [List.any_eq_false.mpr hq]
      simp

/-! ## Lemmas on snapshot lookup -/

theorem mapGet_map_key (s : List EnvironmentVariable) (k : String) :
    mapGet (s.map fun v => (v.key, v)) k = lookupVar s k := by
  induction s with
  | nil => rfl
  | cons v s ih =>
      simp only [List.map_cons, mapGet, lookupVar, List.find?] at ih ⊢
      by_cases hb : v.key == k
      · simp [hb]
      · simp only [hb]
        exact ih

theorem lookupVar_isSome_iff (s : List EnvironmentVariable) (k : String) :
    (lookupVar s k).isSome ↔ ∃ v ∈ s, v.key = k := by
  unfold lookupVar
  rw [List.find?_isSome]
  simp

theorem lookupVar_eq_none_iff (s : List EnvironmentVariable) (k : String) :
    lookupVar s k = none ↔ ∀ v ∈ s, v.key ≠ k := by
  unfold lookupVar
  rw [List.find?_eq_none]
  simp

theorem lookupVar_eq_some_imp {s : List EnvironmentVariable} {k : String}
    {v : EnvironmentVariable} (h : lookupVar s k = some v) :
    v ∈ s ∧ v.key = k :=
  ⟨List.mem_of_find?_eq_some h, by simpa using List.find?_some h⟩

theorem lookupVar_eq_some_of_mem {s : List EnvironmentVariable}
    (hs : (s.map (fun v => v.key)).Nodup) {v : EnvironmentVariable}
    (hv : v ∈ s) : lookupVar s v.key = some v := by
  induction s with
  | nil => cases hv
  | cons w s ih =>
      simp only [List.map_cons, List.nodup_cons] at hs
      rcases List.mem_cons.mp hv with rfl | hv'
      · simp [lookupVar, List.find?]
      · have hne : (w.key == v.key) = false := by
          simp only [beq_eq_false_iff_ne, ne_eq]
          intro he
          exact hs.1 (he ▸ List.mem_map.mpr ⟨v, hv', rfl⟩)
        have := ih hs.2 hv'
        simp only [lookupVar, List.find?, hne] at this ⊢
        exact this

/-- On snapshots with unique keys, the `Map` construction inside
`compareVariables` is the identity, so the three output lists are filters of
the input snapshots keyed by `lookupVar`. -/
theorem compareVariables_eq_of_nodup (current desired : List EnvironmentVariable)
    (hc : (current.map (fun v => v.key)).Nodup)
    (hd : (desired.map (fun v => v.key)).Nodup) :
    compareVariables current desired =
      ⟨desired.filterMap (fun v =>
          match lookupVar current v.key with
          | none => some v
          | some _ => none),
        desired.filterMap (fun v =>
          match lookupVar current v.key with
          | none => none
          | some cv =>
              if cv.value ≠ v.value then some ⟨v.key, cv.value, v.value⟩
              else none),
        current.filterMap (fun v =>
          match lookupVar desired v.key with
          | none => some v
          | some _ => none)⟩ := by
  have hkc : ((current.map fun v => (v.key, v)).map Prod.fst).Nodup := by
    rw [List.map_map]
    exact hc
  have hkd : ((desired.map fun v => (v.key, v)).map Prod.fst).Nodup := by
    rw [List.map_map]
    exact hd
  unfold compareVariables
  rw [mapOfList_eq_self _ hkc, mapOfList_eq_self _ hkd]
  simp only [List.filterMap_map, VariablesDiff.mk.injEq]
  refine ⟨?_, ?_, ?_⟩
  · apply List.filterMap_congr
    intro v _
    simp [Function.comp, mapGet_map_key]
  · apply List.filterMap_congr
    intro v _
    simp [Function.comp, mapGet_map_key]
  · apply List.filterMap_congr
    intro v _
    simp [Function.comp, mapGet_map_key]

/-! ## Claim theorems -/

/-- Claim C1: for snapshots `current` and `desired` with unique keys, every
key is classified by `compareVariables` into exactly one of `toAdd`,
`toUpdate`, `toDelete`, or none of them, consistently with value equality:
in `toAdd` iff in `desired` and not `current`; in `toUpdate` iff in both with
unequal values; in `toDelete` iff in `current` and not `desired`; in none
(while present in a snapshot) iff in both with equal values. -/
theorem compareVariables_partitionAt (current desired : List EnvironmentVariable)
    (hc : (current.map (fun v => v.key)).Nodup)
    (hd : (desired.map (fun v => v.key)).Nodup) (k : String) :
    PartitionAt current desired k := by
  have hta : (compareVariables current desired).toAdd =
      desired.filterMap (fun v =>
        match lookupVar current v.key with
        | none => some v
        | some _ => none) := by
    rw [compareVariables_eq_of_nodup current desired hc hd]
  have htu : (compareVariables current desired).toUpdate =
      desired.filterMap (fun v =>
        match lookupVar current v.key with
        | none => none
        | some cv =>
            if cv.value ≠ v.value then some ⟨v.key, cv.value, v.value⟩
            else none) := by
    rw [compareVariables_eq_of_nodup current desired hc hd]
  have htd : (compareVariables current desired).toDelete =
      current.filterMap (fun v =>
        match lookupVar desired v.key with
        | none => some v
        | some _ => none) := by
    rw [compareVariables_eq_of_nodup current desired hc hd]
  have ha : (k ∈ (compareVariables current desired).toAdd.map (fun v => v.key)) ↔
      ((lookupVar desired k).isSome ∧ lookupVar current k = none) := by
    rw [hta]
    constructor
    · intro h
      obtain ⟨a, hmem, hak⟩ := List.mem_map.mp h
      obtain ⟨v, hv, hfv⟩ := List.mem_filterMap.mp hmem
      rcases hlc : lookupVar current v.key with _ | cv
      · rw [hlc] at hfv
        simp only [Option.some.injEq] at hfv
        subst hfv
        subst hak
        exact ⟨(lookupVar_isSome_iff _ _).mpr ⟨v, hv, rfl⟩, hlc⟩
      · rw [hlc] at hfv
        cases hfv
    · rintro ⟨hs, hn⟩
      obtain ⟨dv, hdv⟩ := Option.isSome_iff_exists.mp hs
      obtain ⟨hmem, hkey⟩ := lookupVar_eq_some_imp hdv
      refine List.mem_map.mpr ⟨dv, List.mem_filterMap.mpr ⟨dv, hmem, ?_⟩, hkey⟩
      rw [hkey, hn]
  have hb : (k ∈ (compareVariables current desired).toUpdate.map (fun u => u.key)) ↔
      (∃ cv dv, lookupVar current k = some cv ∧ lookupVar desired k = some dv ∧
        cv.value ≠ dv.value) := by
    rw [htu]
    constructor
    · intro h
      obtain ⟨u, hmem, huk⟩ := List.mem_map.mp h
      obtain ⟨v, hv, hfv⟩ := List.mem_filterMap.mp hmem
      rcases hlc : lookupVar current v.key with _ | cv
      · rw [hlc] at hfv
        cases hfv
      · rw [hlc] at hfv
        have hfv' : (if cv.value ≠ v.value
            then some (⟨v.key, cv.value, v.value⟩ : UpdateEntry)
            else none) = some u := hfv
        by_cases hval : cv.value ≠ v.value
        · rw [if_pos hval] at hfv'
          simp only [Option.some.injEq] at hfv'
          subst hfv'
          have hvk : v.key = k := huk
          subst hvk
          exact ⟨cv, v, hlc, lookupVar_eq_some_of_mem hd hv, hval⟩
        · rw [if_neg hval] at hfv'
          cases hfv'
    · rintro ⟨cv, dv, hcv, hdvl, hval⟩
      obtain ⟨hdvmem, hdvkey⟩ := lookupVar_eq_some_imp hdvl
      refine List.mem_map.mpr
        ⟨⟨dv.key, cv.value, dv.value⟩,
         List.mem_filterMap.mpr ⟨dv, hdvmem, ?_⟩, hdvkey⟩
      rw [hdvkey, hcv]
      simp [hval]
  have hcD : (k ∈ (compareVariables current desired).toDelete.map (fun v => v.key)) ↔
      ((lookupVar current k).isSome ∧ lookupVar desired k = none) := by
    rw [htd]
    constructor
    · intro h
      obtain ⟨a, hmem, hak⟩ := List.mem_map.mp h
      obtain ⟨v, hv, hfv⟩ := List.mem_filterMap.mp hmem
      rcases hld : lookupVar desired v.key with _ | dv
      · rw [hld] at hfv
        simp only [Option.some.injEq] at hfv
        subst hfv
        subst hak
        exact ⟨(lookupVar_isSome_iff _ _).mpr ⟨v, hv, rfl⟩, hld⟩
      · rw [hld] at hfv
        cases hfv
    · rintro ⟨hs, hn⟩
      obtain ⟨cv, hcv⟩ := Option.isSome_iff_exists.mp hs
      obtain ⟨hmem, hkey⟩ := lookupVar_eq_some_imp hcv
      refine List.mem_map.mpr ⟨cv, List.mem_filterMap.mpr ⟨cv, hmem, ?_⟩, hkey⟩
      rw [hkey, hn]
  have hdD : ((k ∉ (compareVariables current desired).toAdd.map (fun v => v.key) ∧
      k ∉ (compareVariables current desired).toUpdate.map (fun u => u.key) ∧
      k ∉ (compareVariables current desired).toDelete.map (fun v => v.key) ∧
      ((lookupVar current k).isSome ∨ (lookupVar desired k).isSome)) ↔
      (∃ cv dv, lookupVar current k = some cv ∧ lookupVar desired k = some dv ∧
        cv.value = dv.value)) := by
    constructor
    · rintro ⟨hna, hnu, hnd, hu⟩
      have hcs : ∃ cv, lookupVar current k = some cv := by
        by_cases hcn : lookupVar current k = none
        · rcases hu with h1 | h2
          · rw [hcn] at h1
            simp at h1
          · exact absurd (ha.mpr ⟨h2, hcn⟩) hna
        · exact Option.ne_none_iff_exists'.mp hcn
      obtain ⟨cv, hcv⟩ := hcs
      have hds : ∃ dv, lookupVar desired k = some dv := by
        by_cases hdn : lookupVar desired k = none
        · exact absurd (hcD.mpr ⟨by rw [hcv]; rfl, hdn⟩) hnd
        · exact Option.ne_none_iff_exists'.mp hdn
      obtain ⟨dv, hdv⟩ := hds
      refine ⟨cv, dv, hcv, hdv, ?_⟩
      by_contra hne
      exact absurd (hb.mpr ⟨cv, dv, hcv, hdv, hne⟩) hnu
    · rintro ⟨cv, dv, hcv, hdv, hval⟩
      refine ⟨?_, ?_, ?_, Or.inl (by rw [hcv]; rfl)⟩
      · intro hmem
        obtain ⟨-, hnone⟩ := ha.mp hmem
        rw [hcv] at hnone
        cases hnone
      · intro hmem
        obtain ⟨cv', dv', hcv', hdv', hne⟩ := hb.mp hmem
        rw [hcv] at hcv'
        rw [hdv] at hdv'
        simp only [Option.some.injEq] at hcv' hdv'
        subst hcv'
        subst hdv'
        exact hne hval
      · intro hmem
        obtain ⟨-, hnone⟩ := hcD.mp hmem
        rw [hdv] at hnone
        cases hnone
  have he : (¬(k ∈ (compareVariables current desired).toAdd.map (fun v => v.key) ∧
        k ∈ (compareVariables current desired).toUpdate.map (fun u => u.key)) ∧
      ¬(k ∈ (compareVariables current desired).toAdd.map (fun v => v.key) ∧
        k ∈ (compareVariables current desired).toDelete.map (fun v => v.key)) ∧
      ¬(k ∈ (compareVariables current desired).toUpdate.map (fun u => u.key) ∧
        k ∈ (compareVariables current desired).toDelete.map (fun v => v.key))) := by
    refine ⟨?_, ?_, ?_⟩
    · rintro ⟨h1, h2⟩
      obtain ⟨-, hnone⟩ := ha.mp h1
      obtain ⟨cv, dv, hcv, -, -⟩ := hb.mp h2
      rw [hnone] at hcv
      cases hcv
    · rintro ⟨h1, h2⟩
      obtain ⟨hs, -⟩ := ha.mp h1
      obtain ⟨-, hnone⟩ := hcD.mp h2
      rw [hnone] at hs
      cases hs
    · rintro ⟨h1, h2⟩
      obtain ⟨cv, dv, -, hdvl, -⟩ := hb.mp h1
      obtain ⟨-, hnone⟩ := hcD.mp h2
      rw [hnone] at hdvl
      cases hdvl
  exact ⟨ha, hb, hcD, hdD, he⟩

/-- Witness for claim C1 at concrete snapshots and key `"B"`. -/
theorem compareVariables_partitionAt_witness :
    (([⟨"1", "A", "1"⟩, ⟨"2", "B", "2"⟩] : List EnvironmentVariable).map
      (fun v => v.key)).Nodup ∧
    (([⟨"1", "B", "3"⟩, ⟨"2", "C", "4"⟩] : List EnvironmentVariable).map
      (fun v => v.key)).Nodup ∧
    PartitionAt [⟨"1", "A", "1"⟩, ⟨"2", "B", "2"⟩]
      [⟨"1", "B", "3"⟩, ⟨"2", "C", "4"⟩] "B" :=
  ⟨by decide, by decide,
    compareVariables_partitionAt _ _ (by decide) (by decide) "B"⟩

/-- Claim C2: when the computed diff is empty, `runSync` makes no update and
no restart call and returns `undefined` (embedded as `.ok none`). -/
theorem runSync_noop (c : Collaborators) (ex : List EnvironmentVariable)
    (vv : Vault) (hex : c.getZeaburVariables = .ok ex)
    (hvv : c.getVaultHubVault = .ok vv)
    (hempty : compareVariables ex (parseEnvToVariables vv.value) =
      ⟨[], [], []⟩) :
    (∀ vs, Event.update vs ∉ (runSync c).1) ∧
    Event.restart ∉ (runSync c).1 ∧
    (runSync c).2 = .ok none := by
  have heq : runSync c = ([.getVars, .getVault], .ok none) := by
    unfold runSync
    rw [hex, hvv]
    simp [hempty]
  rw [heq]
  refine ⟨fun vs => ?_, ?_, rfl⟩
  · simp
  · simp

/-- Witness for claim C2 at the concrete collaborator instance `cEmpty`. -/
theorem runSync_noop_witness :
    cEmpty.getZeaburVariables = .ok [] ∧
    cEmpty.getVaultHubVault = .ok ⟨""⟩ ∧
    compareVariables [] (parseEnvToVariables "") = ⟨[], [], []⟩ ∧
    ((∀ vs, Event.update vs ∉ (runSync cEmpty).1) ∧
      Event.restart ∉ (runSync cEmpty).1 ∧
      (runSync cEmpty).2 = .ok none) :=
  ⟨rfl, rfl, by decide, runSync_noop cEmpty [] ⟨""⟩ rfl rfl (by decide)⟩

/-- Claim C3: when the computed diff is non-empty, `runSync` invokes the
apply operation with the full parsed desired snapshot; when apply succeeds
the restart operation is invoked exactly once, strictly after it (the trace
is exactly fetch, fetch, update, restart); when apply fails, restart is never
invoked and the error propagates. -/
theorem runSync_applies (c : Collaborators) (ex : List EnvironmentVariable)
    (vv : Vault) (hex : c.getZeaburVariables = .ok ex)
    (hvv : c.getVaultHubVault = .ok vv)
    (hne : (compareVariables ex (parseEnvToVariables vv.value)).toAdd.length +
      (compareVariables ex (parseEnvToVariables vv.value)).toUpdate.length +
      (compareVariables ex (parseEnvToVariables vv.value)).toDelete.length ≠ 0) :
    Event.update (parseEnvToVariables vv.value) ∈ (runSync c).1 ∧
    (∀ r, c.updateZeaburVariables (parseEnvToVariables vv.value) = .ok r →
      (runSync c).1 =
        [.getVars, .getVault, .update (parseEnvToVariables vv.value),
         .restart]) ∧
    (∀ e, c.updateZeaburVariables (parseEnvToVariables vv.value) = .error e →
      Event.restart ∉ (runSync c).1 ∧ (runSync c).2 = .error e) := by
  unfold runSync
  rw [hex, hvv]
  simp only [if_neg hne]
  rcases hu : c.updateZeaburVariables (parseEnvToVariables vv.value) with e | r
  · refine ⟨by simp, ?_, ?_⟩
    · intro r hr
      cases hr
    · intro e' he'
      simp only [Except.error.injEq] at he'
      subst he'
      exact ⟨by simp, rfl⟩
  · rcases hr : c.restartZeaburService with e2 | r2
    · refine ⟨by simp, ?_, ?_⟩
      · intro r' hr'
        rfl
      · intro e' he'
        cases he'
    · refine ⟨by simp, ?_, ?_⟩
      · intro r' hr'
        rfl
      · intro e' he'
        cases he'

/-- Witness for claim C3 at the concrete collaborator instance `cChange`. -/
theorem runSync_applies_witness :
    cChange.getZeaburVariables = .ok [] ∧
    cChange.getVaultHubVault = .ok ⟨"A=1"⟩ ∧
    ((compareVariables [] (parseEnvToVariables "A=1")).toAdd.length +
      (compareVariables [] (parseEnvToVariables "A=1")).toUpdate.length +
      (compareVariables [] (parseEnvToVariables "A=1")).toDelete.length ≠ 0) ∧
    (Event.update (parseEnvToVariables "A=1") ∈ (runSync cChange).1 ∧
      (∀ r, cChange.updateZeaburVariables (parseEnvToVariables "A=1") = .ok r →
        (runSync cChange).1 =
          [.getVars, .getVault, .update (parseEnvToVariables "A=1"),
           .restart]) ∧
      (∀ e, cChange.updateZeaburVariables (parseEnvToVariables "A=1") =
          .error e →
        Event.restart ∉ (runSync cChange).1 ∧
        (runSync cChange).2 = .error e)) :=
  ⟨rfl, rfl, by decide, runSync_applies cChange [] ⟨"A=1"⟩ rfl rfl (by decide)⟩

/-- Counterexample to claim C4: a concrete cycle with a non-empty diff in
which apply and restart are both invoked and yet no notification-dispatch
call ever occurs — `runSync` never emits a `notify` event. -/
theorem runSync_notification_missing_cex :
    ((compareVariables [] (parseEnvToVariables "A=1")).toAdd.length +
      (compareVariables [] (parseEnvToVariables "A=1")).toUpdate.length +
      (compareVariables [] (parseEnvToVariables "A=1")).toDelete.length ≠ 0) ∧
    Event.update (parseEnvToVariables "A=1") ∈ (runSync cChange).1 ∧
    Event.restart ∈ (runSync cChange).1 ∧
    Event.notify ∉ (runSync cChange).1 :=
  ⟨by decide, by decide, by decide, by decide⟩

/-- Claim C4 (amended): in every sync cycle, with or without changes,
`runSync` never invokes the notification collaborator — no
notification-dispatch call occurs in a cycle (the notifier module exists in
the repository but is not called by the orchestrator). -/
theorem runSync_never_notifies (c : Collaborators) :
    Event.notify ∉ (runSync c).1 := by
  unfold runSync
  rcases c.getZeaburVariables with e | ex
  · simp
  · rcases c.getVaultHubVault with e | vv
    · simp
    · by_cases hz : (compareVariables ex (parseEnvToVariables vv.value)).toAdd.length +
        (compareVariables ex (parseEnvToVariables vv.value)).toUpdate.length +
        (compareVariables ex (parseEnvToVariables vv.value)).toDelete.length = 0
      · simp [hz]
      · simp only [if_neg hz]
        rcases c.updateZeaburVariables (parseEnvToVariables vv.value) with e | r
        · simp
        · rcases c.restartZeaburService with e2 | r2 <;> simp

/-- Claim C5: `runSyncWithErrorHandling` catches every error a sync cycle
throws (including collaborator errors), logs it, and returns normally —
no error ever propagates to its caller. -/
theorem runSyncWithErrorHandling_isolates (c : Collaborators) :
    (runSyncWithErrorHandling c).2 = .ok () ∧
    (∀ e, (runSync c).2 = .error e →
      Event.logError e ∈ (runSyncWithErrorHandling c).1) := by
  unfold runSyncWithErrorHandling
  rcases h : runSync c with ⟨tr, res⟩
  rcases res with e | v
  · refine ⟨rfl, ?_⟩
    intro e' he'
    have he2 : e = e' := by
      simpa using he'
    subst he2
    simp
  · refine ⟨rfl, ?_⟩
    intro e' he'
    cases he'

/-- Witness for claim C5 at the concrete failing collaborator instance
`cFail`. -/
theorem runSyncWithErrorHandling_isolates_witness :
    (runSyncWithErrorHandling cFail).2 = .ok () ∧
    Event.logError "boom" ∈ (runSyncWithErrorHandling cFail).1 :=
  ⟨(runSyncWithErrorHandling_isolates cFail).1,
    (runSyncWithErrorHandling_isolates cFail).2 "boom" rfl⟩

/-- Claim C6: the job registered by `startScheduler` has overrun protection
enabled, so a tick that fires while a previous cycle is still in flight is
skipped entirely — the scheduler state is unchanged (nothing queued, nothing
run in parallel, invocation count unchanged); and two closely spaced ticks
from the initial state invoke the wrapped cycle once, not twice. -/
theorem startScheduler_skips_overlapping_tick (cronSchedule : String)
    (s : SchedulerState) (h : s.running = true) :
    (startScheduler cronSchedule).overrunProtection = true ∧
    schedulerTick (startScheduler cronSchedule) s = s ∧
    (schedulerTick (startScheduler cronSchedule) s).invocations =
      s.invocations ∧
    (schedulerTick (startScheduler cronSchedule)
      (schedulerTick (startScheduler cronSchedule) schedulerInit)).invocations
      = 1 := by
  have hskip : schedulerTick (startScheduler cronSchedule) s = s := by
    unfold schedulerTick startScheduler
    simp [h]
  refine ⟨rfl, hskip, by rw [hskip], ?_⟩
  rfl

/-- Witness for claim C6 at a concrete in-flight scheduler state. -/
theorem startScheduler_skips_overlapping_tick_witness :
    (⟨true, 1⟩ : SchedulerState).running = true ∧
    ((startScheduler "*/5 * * * *").overrunProtection = true ∧
      schedulerTick (startScheduler "*/5 * * * *") ⟨true, 1⟩ = ⟨true, 1⟩ ∧
      (schedulerTick (startScheduler "*/5 * * * *") ⟨true, 1⟩).invocations =
        (⟨true, 1⟩ : SchedulerState).invocations ∧
      (schedulerTick (startScheduler "*/5 * * * *")
        (schedulerTick (startScheduler "*/5 * * * *")
          schedulerInit)).invocations = 1) :=
  ⟨rfl, startScheduler_skips_overlapping_tick "*/5 * * * *" ⟨true, 1⟩ rfl⟩

/-- Claim C7: `sendNotification` attempts delivery to every configured
provider — the settled outcomes are exactly the pointwise outcomes of each
provider send, so no rejection prevents another attempt — and the call
itself always returns normally, never throwing. -/
theorem sendNotification_fanout (providerSends : List (Except String Unit)) :
    (sendNotification providerSends).2 = .ok () ∧
    (sendNotification providerSends).1 =
      providerSends.map (fun r =>
        match r with
        | .ok _ => Outcome.fulfilled
        | .error e => Outcome.rejected e) := by
  unfold sendNotification
  by_cases hp : providerSends.isEmpty
  · rw [if_pos hp]
    rw [List.isEmpty_iff] at hp
    subst hp
    exact ⟨rfl, rfl⟩
  · rw [if_neg hp]
    exact ⟨rfl, rfl⟩

/-- Claim C8: on the documented example, `compareVariables` adds `C=4`,
updates `B` from `2` to `3`, and deletes `A=1`. -/
theorem compareVariables_example :
    compareVariables
      [⟨"1", "A", "1"⟩, ⟨"2", "B", "2"⟩]
      [⟨"1", "B", "3"⟩, ⟨"2", "C", "4"⟩] =
      ⟨[⟨"2", "C", "4"⟩], [⟨"B", "2", "3"⟩], [⟨"1", "A", "1"⟩]⟩ := by
  decide

/-- Claim C9: parsing `"A=1\nA=2"` yields exactly one record, with key `A`,
value `2` (last assignment wins) and identifier `"1"`. -/
theorem parseEnvToVariables_last_wins :
    parseEnvToVariables "A=1\nA=2" = [⟨"1", "A", "2"⟩] := by
  decide

/-- Claim C10: diffing any snapshot against itself — duplicate keys and the
empty snapshot included — yields an empty diff. -/
theorem compareVariables_self (s : List EnvironmentVariable) :
    compareVariables s s = ⟨[], [], []⟩ := by
  unfold compareVariables
  simp only
  simp only [VariablesDiff.mk.injEq]
  refine ⟨?_, ?_, ?_⟩
  · rw [List.filterMap_eq_nil_iff]
    intro p hp
    rw [mapGet_of_mem_nodup _ (nodupKeys_mapOfList _) hp]
  · rw [List.filterMap_eq_nil_iff]
    intro p hp
    rw [mapGet_of_mem_nodup _ (nodupKeys_mapOfList _) hp]
    simp
  · rw [List.filterMap_eq_nil_iff]
    intro p hp
    rw [mapGet_of_mem_nodup _ (nodupKeys_mapOfList _) hp]

end ZeaburEnvSync
